import Mathlib

/-!
Shallow embedding of the news aggregation and caching subsystem of the
Finance repository (`backend/app/core/cache.py` and
`backend/app/services/news_service.py`).

Modelling conventions:
* Python `datetime` instants are modelled as `Nat` (time units since the
  minimum representable instant, so `datetime.min` is `0`).
* The network and the external parsing libraries (httpx, feedparser,
  BeautifulSoup, `datetime.fromisoformat`) are the boundary of the
  embedding; they enter as explicit oracle functions collected in `NewsEnv`.
  A fetch that raises in Python is an oracle answer `Except.error ()`.
* Python lists are `List`, `None`-able values are `Option`, dicts used as
  key-ordered registries are association `List`s (Python dicts iterate in
  insertion order).
-/

namespace Finance

/-! ## `backend/app/core/cache.py` — TTLCache

`TTLCache._store : Dict[str, Tuple[datetime, Any]]` becomes an association
list from keys to `(expires_at, value)`.  `datetime.utcnow()` becomes an
explicit `now : Nat` argument. -/

/-- The backing store of a `TTLCache`: key → (expiry instant, value). -/
def TTLCache (α : Type) : Type := List (String × Nat × α)

namespace TTLCache

/-- The empty cache (`TTLCache.__init__`). -/
def empty (α : Type) : TTLCache α := []

/-- `self._store.get(key)` on the association list. -/
def find (c : TTLCache α) (key : String) : Option (Nat × α) :=
  match c with
  | [] => none
  | (k, e, v) :: rest => if k = key then some (e, v) else find rest key

/-- `self._store.pop(key, None)`: remove the entry for `key`, if any. -/
def erase (c : TTLCache α) (key : String) : TTLCache α :=
  match c with
  | [] => []
  | (k, e, v) :: rest => if k = key then rest else (k, e, v) :: erase rest key

/-- `TTLCache.get`: return the stored value unless the entry is absent or
`now > expires_at`; an expired entry is popped.  The result is the returned
value together with the cache state after the call. -/
def get (c : TTLCache α) (now : Nat) (key : String) : Option α × TTLCache α :=
  match find c key with
  | none => (none, c)
  | some (expires_at, value) =>
    if now > expires_at then (none, erase c key) else (some value, c)

/-- `self._store[key] = (expires_at, value)`: overwrite or append. -/
def insert (c : TTLCache α) (key : String) (e : Nat) (v : α) : TTLCache α :=
  match c with
  | [] => [(key, e, v)]
  | (k, e', v') :: rest =>
    if k = key then (key, e, v) :: rest else (k, e', v') :: insert rest key e v

/-- `TTLCache.set`: store `value` with expiry `now + ttl_seconds`,
unconditionally overwriting any prior entry. -/
def set (c : TTLCache α) (now : Nat) (key : String) (value : α)
    (ttl_seconds : Nat) : TTLCache α :=
  insert c key (now + ttl_seconds) value

@[simp] theorem find_insert_self (c : TTLCache α) (key : String) (e : Nat) (v : α) :
    find (insert c key e v) key = some (e, v) := by
  induction c with
  | nil => simp [insert, find]
  | cons hd tl ih =>
    obtain ⟨k, e', v'⟩ := hd
    by_cases h : k = key <;> simp [insert, find, h, ih]

theorem get_set_self (c : TTLCache α) (t t' : Nat) (key : String) (v : α) (ttl : Nat) :
    get (set c t key v ttl) t' key =
      if t' > t + ttl then (none, erase (set c t key v ttl) key)
      else (some v, set c t key v ttl) := by
  simp only [get, set, find_insert_self]

end TTLCache

/-! ## Python string primitives

The Python string methods the news service uses are modelled at the
character-list level so that every definition is executable by the kernel.
All strings the service manipulates are ASCII. -/

/-- Python `str.lower()` (ASCII range). -/
def pyLower (s : String) : String := ⟨s.data.map Char.toLower⟩

/-- Python `str.strip()` with no argument: remove leading and trailing
whitespace. -/
def pyStrip (s : String) : String :=
  ⟨((s.data.dropWhile Char.isWhitespace).reverse.dropWhile
      Char.isWhitespace).reverse⟩

/-- Python `str.rstrip("/")`. -/
def pyRstripSlash (s : String) : String :=
  ⟨(s.data.reverse.dropWhile (· = '/')).reverse⟩

/-- Python `s.startswith(pre)`. -/
def pyStartsWith (s pre : String) : Bool := pre.data.isPrefixOf s.data

/-- Python `s.replace("Z", "+00:00")`, the one `str.replace` call the
service performs (every occurrence is replaced; the pattern is a single
character). -/
def pyReplaceZ (s : String) : String :=
  ⟨s.data.flatMap fun c => if c = 'Z' then "+00:00".data else [c]⟩

/-- Python `s.split("/")` on character lists. -/
def splitSlashAux : List Char → List (List Char)
  | [] => [[]]
  | c :: rest =>
    if c = '/' then [] :: splitSlashAux rest
    else
      match splitSlashAux rest with
      | h :: t => (c :: h) :: t
      | [] => [[c]]

/-- Python `s.split("/")`. -/
def pySplitSlash (s : String) : List String :=
  (splitSlashAux s.data).map String.mk

/-- Whether `sub` occurs as a contiguous substring, Python `sub in s` and
the semantics of `re.search` on a literal pattern. -/
def containsSubAux (pat : List Char) : List Char → Bool
  | [] => pat.isEmpty
  | c :: rest => pat.isPrefixOf (c :: rest) || containsSubAux pat rest

/-- Python `sub in s`. -/
def pyContains (s sub : String) : Bool := containsSubAux sub.data s.data

/-- Python string comparison: lexicographic by code points. -/
def charListLe : List Char → List Char → Bool
  | [], _ => true
  | _ :: _, [] => false
  | a :: as, b :: bs =>
    if a.toNat < b.toNat then true
    else if b.toNat < a.toNat then false
    else charListLe as bs

/-- Python `a <= b` on strings. -/
def pyStrLe (a b : String) : Bool := charListLe a.data b.data

/-! ## `backend/app/services/news_service.py` — data model -/

/-- `NewsItem` dataclass.  `publish_time` is an optional ISO-8601 string,
exactly as in the source (the string form matters: the sort key re-parses
it). -/
structure NewsItem where
  title : String
  summary : String
  url : String
  source : String
  publish_time : Option String
  image_url : Option String
  tags : List String
deriving Repr, DecidableEq

/-- `SourceConfig` dataclass. -/
structure SourceConfig where
  source : String
  region : String
  rss_urls : List String
  html_seed_urls : List String
deriving Repr, DecidableEq

/-- One entry of a parsed syndication feed, as the code reads it off the
result of `feedparser`.  `published_iso` / `updated_iso` hold what
`_to_iso(entry.published_parsed)` / `_to_iso(entry.updated_parsed)` return
(`_to_iso` itself only wraps the `datetime` library: it yields an ISO string
or `None`); `term_tags` holds the already extracted and stripped `term`
strings of the truthy-term tags of `entry.tags`; `image` holds what
`_extract_image_from_entry` returns (a pure scan of the media attachments
of the entry — a BeautifulSoup boundary). -/
structure FeedEntry where
  title : String
  link : String
  summary : String
  published_iso : Option String
  updated_iso : Option String
  term_tags : List String
  image : Option String
deriving Repr, DecidableEq

/-- An HTTP response to an RSS GET, already run through `feedparser.parse`:
the status code and the entries of the feed. -/
structure RssResp where
  status_code : Nat
  entries : List FeedEntry
deriving Repr, DecidableEq

/-- An anchor tag (`href` attribute, `get_text` result) found by
BeautifulSoup in an HTML page. -/
structure Anchor where
  href : String
  text : String
deriving Repr, DecidableEq

/-- An HTTP response to an HTML GET, already run through the BeautifulSoup
anchor scan `find_all("a", href=True)`: the status code and the anchors of
the page. -/
structure HtmlResp where
  status_code : Nat
  anchors : List Anchor
deriving Repr, DecidableEq

/-- The boundary oracles of the embedding: one call of each per URL /
library entry point.  An `Except.error ()` answer models a raised
exception. -/
structure NewsEnv where
  /-- `client.get` + `feedparser.parse` for an RSS feed URL. -/
  fetchRss : String → Except Unit RssResp
  /-- `client.get` + BeautifulSoup anchor scan for an HTML seed URL. -/
  fetchHtml : String → Except Unit HtmlResp
  /-- `_strip_html` (BeautifulSoup `get_text`). -/
  stripHtml : String → String
  /-- `datetime.fromisoformat`, as a total function into `Option`:
  `none` models the `ValueError` the code catches.  Instants are `Nat`
  time units since `datetime.min`, so `datetime.min` parses to `0`. -/
  fromisoformat : String → Option Nat

/-! ## `_fetch_rss_items` -/

/-- The body of the per-entry loop of `_fetch_rss_items`: skip entries
missing a (stripped) title or link, strip HTML from the summary, resolve
the publish time as `_to_iso(published_parsed) or _to_iso(updated_parsed)`,
cap tags at 10. -/
def processEntry (env : NewsEnv) (source : String) (e : FeedEntry) :
    Option NewsItem :=
  let title := pyStrip e.title
  let link := pyStrip e.link
  if title = "" || link = "" then none
  else some
    { title := title
      summary := env.stripHtml e.summary
      url := link
      source := source
      publish_time := e.published_iso.orElse fun _ => e.updated_iso
      image_url := e.image
      tags := e.term_tags.take 10 }

/-- The items one feed URL contributes in `_fetch_rss_items`: nothing on a
raised exception or a non-200 status, otherwise the processed first
`max(10, limit)` entries. -/
def rssUrlItems (env : NewsEnv) (source : String) (limit : Nat)
    (url : String) : List NewsItem :=
  match env.fetchRss url with
  | .error _ => []
  | .ok resp =>
    if resp.status_code ≠ 200 then []
    else (resp.entries.take (max 10 limit)).filterMap (processEntry env source)

/-- The `for url in rss_urls` loop of `_fetch_rss_items`: try each URL in
order, `break` as soon as the accumulated `items` list is non-empty. -/
def rssLoop (env : NewsEnv) (source : String) (limit : Nat) :
    List String → List NewsItem
  | [] => []
  | url :: rest =>
    let items := rssUrlItems env source limit url
    if items.isEmpty then rssLoop env source limit rest else items

/-- `_fetch_rss_items`: the loop result truncated to `limit`. -/
def fetchRssItems (env : NewsEnv) (source : String) (rss_urls : List String)
    (limit : Nat) : List NewsItem :=
  (rssLoop env source limit rss_urls).take limit

/-- Instrumented variant of the `_fetch_rss_items` loop that also records
which feed URLs were attempted (i.e. had an HTTP GET dispatched). -/
def rssLoopTr (env : NewsEnv) (source : String) (limit : Nat) :
    List String → List NewsItem × List String
  | [] => ([], [])
  | url :: rest =>
    let items := rssUrlItems env source limit url
    if items.isEmpty then
      let (is, tried) := rssLoopTr env source limit rest
      (is, url :: tried)
    else (items, [url])

/-! ## `_extract_links_from_html`, `_dedupe_keep_order`, `_fetch_html_items` -/

/-- Python `str.rstrip("/")`. -/
def rstripSlash (s : String) : String := pyRstripSlash s

/-- `_extract_links_from_html`, applied to the anchors BeautifulSoup found:
keep anchors with non-empty stripped href and non-empty text, drop
fragment-only and `javascript:` hrefs, resolve root-relative hrefs against
`base_url`, drop anything that does not start with `"http"`. -/
def extractLinksFromHtml (anchors : List Anchor) (base_url : String) :
    List (String × String) :=
  match anchors with
  | [] => []
  | a :: rest =>
    let href := pyStrip a.href
    let title := a.text
    if href = "" || title = "" then extractLinksFromHtml rest base_url
    else if pyStartsWith href "#" || pyStartsWith (pyLower href) "javascript:" then
      extractLinksFromHtml rest base_url
    else
      let href := if pyStartsWith href "/" then rstripSlash base_url ++ href else href
      if ¬ pyStartsWith href "http" then extractLinksFromHtml rest base_url
      else (title, href) :: extractLinksFromHtml rest base_url

/-- The `seen` set of `_dedupe_keep_order`, as a list of already-seen URLs. -/
def dedupeAux (seen : List String) :
    List (String × String) → List (String × String)
  | [] => []
  | (title, url) :: rest =>
    if url ∈ seen then dedupeAux seen rest
    else (title, url) :: dedupeAux (url :: seen) rest

/-- `_dedupe_keep_order`: drop every pair whose URL was already seen,
keeping first occurrences in their original order. -/
def dedupeKeepOrder (pairs : List (String × String)) :
    List (String × String) :=
  dedupeAux [] pairs

/-- `base_url = "/".join(seed.split("/", 3)[:3])`: scheme+host of the
seed URL. -/
def seedBase (seed : String) : String :=
  String.intercalate "/" ((pySplitSlash seed).take 3)

/-- The `(title, url)` pairs one seed URL contributes to `collected` in
`_fetch_html_items`: nothing on a raised exception or non-200 status. -/
def htmlSeedPairs (env : NewsEnv) (seed : String) : List (String × String) :=
  match env.fetchHtml seed with
  | .error _ => []
  | .ok resp =>
    if resp.status_code ≠ 200 then []
    else extractLinksFromHtml resp.anchors (seedBase seed)

/-- The article-like URL heuristic: the regex
`(post|\.html|\.chn|/news|/chung-khoan|/thi-truong)` searched
case-insensitively. -/
def isArticleLike (url : String) : Bool :=
  let u := pyLower url
  pyContains u "post" || pyContains u ".html" || pyContains u ".chn" ||
  pyContains u "/news" || pyContains u "/chung-khoan" || pyContains u "/thi-truong"

/-- `_fetch_html_items`: accumulate pairs over all seeds, deduplicate by
URL, put article-like URLs first, truncate to `limit`, and wrap each pair
in a `NewsItem` with empty summary/tags and absent publish time/image. -/
def fetchHtmlItems (env : NewsEnv) (source : String) (seed_urls : List String)
    (limit : Nat) : List NewsItem :=
  let collected := (seed_urls.map (htmlSeedPairs env)).flatten
  let pairs := dedupeKeepOrder collected
  let parts := pairs.partition fun p => isArticleLike p.2
  let chosen := (parts.1 ++ parts.2).take limit
  chosen.map fun (t, u) =>
    { title := t, summary := "", url := u, source := source,
      publish_time := none, image_url := none, tags := [] }

/-! ## `NewsService.latest` -/

/-- `datetime.min` in the `Nat` time model. -/
def datetimeMin : Nat := 0

/-- The `sort_key` closure of `NewsService.latest`: falsy (`None` or empty)
publish times and unparseable publish times key as `datetime.min`; otherwise
the key is `fromisoformat` of the string with `"Z"` replaced by
`"+00:00"`. -/
def sortKey (fromiso : String → Option Nat) (item : NewsItem) : Nat :=
  match item.publish_time with
  | none => datetimeMin
  | some s =>
    if s = "" then datetimeMin
    else (fromiso (pyReplaceZ s)).getD datetimeMin

/-- The comparator realising `sorted(..., key=sort_key, reverse=True)`:
`a` may stay before `b` iff the key of `a` is ≥ the key of `b`; with a
stable sort this is exactly the stable descending sort of Python. -/
def newsLE (fromiso : String → Option Nat) (a b : NewsItem) : Bool :=
  sortKey fromiso b ≤ sortKey fromiso a

/-- The source-selection loop of `latest`: keep registry entries (in
registry order) whose region matches (`all`/`both` match everything) and,
when a non-empty normalized source filter is given, whose key is in the
filter; then apply the `selected[:10]` safety cap. -/
def selectSources (registry : List (String × SourceConfig)) (region : String)
    (sourcesNorm : List String) : List SourceConfig :=
  ((registry.filter fun kv =>
      (region = "all" || region = "both" || kv.2.region = region) &&
      (sourcesNorm.isEmpty || sourcesNorm.contains kv.1)).map Prod.snd).take 10

/-- Python `sorted` on strings (by code points), realised as a stable merge
sort under the lexicographic order. -/
def sortedStrings (l : List String) : List String :=
  l.mergeSort pyStrLe

/-- The cache key of `latest`: `news_latest:`, the normalized region, the
comma-join of the sorted selected source keys, and the clamped limit. -/
def latestCacheKey (region : String) (selected : List SourceConfig)
    (limitN : Nat) : String :=
  "news_latest:" ++ region ++ ":" ++
    String.intercalate "," (sortedStrings (selected.map SourceConfig.source)) ++
    ":" ++ toString limitN

/-- `[s.lower().strip() for s in (sources or []) if s and s.strip()]`. -/
def normalizeSources (sources : Option (List String)) : List String :=
  ((sources.getD []).filter fun s => s ≠ "" && pyStrip s ≠ "").map fun s =>
    pyStrip (pyLower s)

/-- The per-source fetch dispatch of `latest`: sources with non-empty
`rss_urls` use the RSS fetcher, all others the HTML fetcher. -/
def dispatchFetch (env : NewsEnv) (per_source_limit : Nat)
    (cfg : SourceConfig) : List NewsItem :=
  if ¬ cfg.rss_urls.isEmpty then
    fetchRssItems env cfg.source cfg.rss_urls per_source_limit
  else fetchHtmlItems env cfg.source cfg.html_seed_urls per_source_limit

/-- `limit = max(1, min(int(limit), 200))`, landing in `Nat` (the clamped
value is at least 1, so `Int.toNat` is faithful). -/
def clampLimit (limit : Int) : Nat := (max 1 (min limit 200)).toNat

/-- `per_source_limit = max(5, min(30, limit // max(1, len(selected))))`. -/
def perSourceLimit (limitN : Nat) (nSelected : Nat) : Nat :=
  max 5 (min 30 (limitN / max 1 nSelected))

/-- The post-fan-out concatenation (`merged`) of `latest`: per-source
result lists in selection order, items in per-source order. -/
def latestMerged (env : NewsEnv) (selected : List SourceConfig)
    (limitN : Nat) : List NewsItem :=
  (selected.map (dispatchFetch env (perSourceLimit limitN selected.length))).flatten

/-- The merge/sort/trim pipeline of `latest` on a cache miss: fan out to
the selected sources, concatenate, stable-sort descending by `sort_key`,
truncate to the clamped limit. -/
def latestOutput (env : NewsEnv) (selected : List SourceConfig)
    (limitN : Nat) : List NewsItem :=
  ((latestMerged env selected limitN).mergeSort (newsLE env.fromisoformat)).take limitN

/-- The sources `latest` selects for a raw `region`/`sources` argument
pair. -/
def latestSelected (registry : List (String × SourceConfig)) (region : String)
    (sources : Option (List String)) : List SourceConfig :=
  selectSources registry (pyLower region) (normalizeSources sources)

/-- The cache key `latest` uses for a raw argument triple. -/
def latestKey (registry : List (String × SourceConfig)) (region : String)
    (sources : Option (List String)) (limit : Int) : String :=
  latestCacheKey (pyLower region) (latestSelected registry region sources)
    (clampLimit limit)

/-- `NewsService.latest`.  The registry (`self.sources`), the boundary
oracles, the module-level `ttl_cache` state and the current instant are
explicit arguments; the result is the returned list of records together
with the cache state after the call (`asdict` is the identity in the
model). -/
def latest (registry : List (String × SourceConfig)) (env : NewsEnv)
    (cache : TTLCache (List NewsItem)) (now : Nat) (region : String)
    (sources : Option (List String)) (limit : Int) :
    List NewsItem × TTLCache (List NewsItem) :=
  match TTLCache.get cache now (latestKey registry region sources limit) with
  | (some cached, c) => (cached, c)
  | (none, c) =>
    let output :=
      latestOutput env (latestSelected registry region sources) (clampLimit limit)
    (output,
     TTLCache.set c now (latestKey registry region sources limit) output 300)

/-- `DEFAULT_SOURCES`, in its Python insertion order. -/
def DEFAULT_SOURCES : List (String × SourceConfig) :=
  [ ("vnexpress",
     { source := "vnexpress", region := "vn",
       rss_urls := ["https://vnexpress.net/rss/kinh-doanh.rss",
                    "https://vnexpress.net/rss/tin-moi-nhat.rss"],
       html_seed_urls := ["https://vnexpress.net/kinh-doanh/chung-khoan"] }),
    ("cafef",
     { source := "cafef", region := "vn", rss_urls := [],
       html_seed_urls := ["https://cafef.vn/thi-truong-chung-khoan.chn",
                          "https://cafef.vn/chung-khoan.chn"] }),
    ("tinnhanhchungkhoan",
     { source := "tinnhanhchungkhoan", region := "vn", rss_urls := [],
       html_seed_urls := ["https://www.tinnhanhchungkhoan.vn/",
                          "https://www.tinnhanhchungkhoan.vn/chung-khoan/"] }),
    ("vietstock",
     { source := "vietstock", region := "vn",
       rss_urls := ["https://en.stockbiz.vn/RSS/News/Market.ashx",
                    "https://en.stockbiz.vn/RSS/News/TopStories.ashx"],
       html_seed_urls := ["https://vietstock.vn/", "https://finance.vietstock.vn/"] }),
    ("bloomberg",
     { source := "bloomberg", region := "global",
       rss_urls := ["https://feeds.bloomberg.com/markets/news.rss"],
       html_seed_urls := ["https://www.bloomberg.com/markets/"] }) ]

/-! ## Helper lemmas -/

theorem latest_hit {registry env cache now region sources limit v}
    (h : (TTLCache.get cache now (latestKey registry region sources limit)).1 = some v) :
    latest registry env cache now region sources limit =
      (v, (TTLCache.get cache now (latestKey registry region sources limit)).2) := by
  unfold latest
  rcases hg : TTLCache.get cache now (latestKey registry region sources limit) with ⟨o, c⟩
  rw [hg] at h
  cases o with
  | none => exact absurd h (by simp)
  | some w => simp at h; subst h; rfl

theorem latest_miss {registry env cache now region sources limit}
    (h : (TTLCache.get cache now (latestKey registry region sources limit)).1 = none) :
    latest registry env cache now region sources limit =
      (latestOutput env (latestSelected registry region sources) (clampLimit limit),
       TTLCache.set (TTLCache.get cache now (latestKey registry region sources limit)).2
         now (latestKey registry region sources limit)
         (latestOutput env (latestSelected registry region sources) (clampLimit limit)) 300) := by
  unfold latest
  rcases hg : TTLCache.get cache now (latestKey registry region sources limit) with ⟨o, c⟩
  rw [hg] at h
  cases o with
  | none => rfl
  | some w => exact absurd h (by simp)

/-- A fully failing boundary environment: every HTTP call raises and
nothing parses.  Used to instantiate hypotheses at concrete inputs. -/
def env0 : NewsEnv :=
  { fetchRss := fun _ => .error ()
    fetchHtml := fun _ => .error ()
    stripHtml := fun s => s
    fromisoformat := fun _ => none }

/-- A feed entry with no date information at all. -/
def entryNoDate : FeedEntry :=
  { title := "A", link := "http://a", summary := "",
    published_iso := none, updated_iso := none, term_tags := [], image := none }

/-- A feed entry whose published time is `datetime.min`: `_to_iso` renders
it as `0001-01-01T00:00:00+00:00`, the earliest representable ISO
timestamp. -/
def entryMinDate : FeedEntry :=
  { title := "B", link := "http://b", summary := "",
    published_iso := some "0001-01-01T00:00:00+00:00", updated_iso := none,
    term_tags := [], image := none }

/-- A boundary environment in which every RSS fetch succeeds with the two
entries above.  `fromisoformat` is honest to the `datetime` library on the
only string this environment ever parses:
`datetime.fromisoformat("0001-01-01T00:00:00+00:00")` is `datetime.min`
(UTC), i.e. instant `0` of the time model. -/
def cexEnv : NewsEnv :=
  { fetchRss := fun _ => .ok { status_code := 200, entries := [entryNoDate, entryMinDate] }
    fetchHtml := fun _ => .error ()
    stripHtml := fun s => s
    fromisoformat := fun s =>
      if s = "0001-01-01T00:00:00+00:00" then some 0 else none }

/-- A one-source registry with a single RSS source. -/
def cexRegistry : List (String × SourceConfig) :=
  [("alpha",
    { source := "alpha", region := "vn",
      rss_urls := ["http://feed"], html_seed_urls := [] })]

/-- The `NewsItem` the RSS fetcher builds from `entryNoDate`. -/
def itemNoDate : NewsItem :=
  { title := "A", summary := "", url := "http://a", source := "alpha",
    publish_time := none, image_url := none, tags := [] }

/-- The `NewsItem` the RSS fetcher builds from `entryMinDate`. -/
def itemMinDate : NewsItem :=
  { title := "B", summary := "", url := "http://b", source := "alpha",
    publish_time := some "0001-01-01T00:00:00+00:00", image_url := none,
    tags := [] }

/-- The default registry restricted to its domestic (`vn`) sources. -/
def DEFAULT_VN_ONLY : List (String × SourceConfig) :=
  DEFAULT_SOURCES.filter fun kv => kv.2.region = "vn"

/-! ## Claim C3 -/

/-- Claim C3, as stated, is refuted at a concrete input: an entry stored at
instant 5 with `ttl_seconds = 0` has expiry instant 5, which is not
strictly in the future at a read at instant 5, yet `get` still returns the
stored value (the code only evicts when `now > expires_at`). -/
theorem C3_counterexample :
    (TTLCache.get (TTLCache.set (TTLCache.empty Nat) 5 "k" 7 0) 5 "k").1 = some 7 ∧
    ¬ 5 < 5 + 0 := by
  exact ⟨rfl, by decide⟩

/-- Claim C3 (amended): `TTLCache.get` returns the stored value if and only
if an entry is present and the current instant has not strictly passed its
expiry instant (`now ≤ expiry`; in particular the entry still hits at the
expiry instant itself); an expired entry is removed and reported absent, a
missing key leaves the cache unchanged; an entry stored via `set` with
`ttl_seconds = 0` is expired for every read at a strictly later instant. -/
theorem C3_cache_expiry_semantics (α : Type) (c : TTLCache α) (now : Nat)
    (key : String) :
    (∀ v : α, (TTLCache.get c now key).1 = some v ↔
      ∃ exp, TTLCache.find c key = some (exp, v) ∧ now ≤ exp) ∧
    (∀ exp (v : α), TTLCache.find c key = some (exp, v) → exp < now →
      TTLCache.get c now key = (none, TTLCache.erase c key)) ∧
    (TTLCache.find c key = none → TTLCache.get c now key = (none, c)) ∧
    (∀ (t t' : Nat) (v : α), t < t' →
      (TTLCache.get (TTLCache.set c t key v 0) t' key).1 = none) := by
  refine ⟨?_, ?_, ?_, ?_⟩
  · intro v
    cases hf : TTLCache.find c key with
    | none => simp [TTLCache.get, hf]
    | some ev =>
      obtain ⟨e, v'⟩ := ev
      simp only [TTLCache.get, hf]
      by_cases hlt : now > e
      · simp only [if_pos hlt]
        constructor
        · intro h; exact absurd h (by simp)
        · rintro ⟨exp, hexp, hle⟩
          rw [Option.some.injEq, Prod.mk.injEq] at hexp
          omega
      · simp only [if_neg hlt]
        constructor
        · intro h
          simp only [Option.some.injEq] at h
          exact ⟨e, by rw [h], by omega⟩
        · rintro ⟨exp, hexp, hle⟩
          rw [Option.some.injEq, Prod.mk.injEq] at hexp
          simp [hexp.2]
  · intro exp v hf hlt
    simp [TTLCache.get, hf, hlt]
  · intro hf
    simp [TTLCache.get, hf]
  · intro t t' v hlt
    simp [TTLCache.get, TTLCache.set, TTLCache.find_insert_self, hlt]

/-- Claim C3 witness: the three hypothetical clauses of the amended theorem
exercised at concrete caches and instants. -/
theorem C3_cache_expiry_semantics_witness :
    (TTLCache.get [("k", 9, 3)] 4 "k").1 = some 3 ∧
    TTLCache.get [("k", 2, 3)] 4 "k" = (none, []) ∧
    (TTLCache.get (TTLCache.set [("k", 2, 3)] 10 "k" 7 0) 11 "k").1 = none := by
  refine ⟨?_, ?_, ?_⟩
  · exact ((C3_cache_expiry_semantics Nat [("k", 9, 3)] 4 "k").1 3).mpr
      ⟨9, rfl, by decide⟩
  · have h := (C3_cache_expiry_semantics Nat [("k", 2, 3)] 4 "k").2.1 2 3 rfl
      (by decide)
    simpa [TTLCache.erase] using h
  · exact (C3_cache_expiry_semantics Nat [("k", 2, 3)] 10 "k").2.2.2 10 11 7
      (by decide)

/-! ## Claim C8 -/

/-- Claim C8: the cache key is composed from the region, the sorted selected
source keys, and the clamped limit (definitionally, via `latestKey`); after
a first call that misses and writes, a second call with identical arguments
at any instant within 300 time units of the write returns exactly the first
result and leaves the cache unchanged, for an arbitrary (even different)
fetch environment — so nothing is re-fetched, re-merged or re-sorted. -/
theorem C8_cached_idempotent (registry : List (String × SourceConfig))
    (env1 env2 : NewsEnv) (cache : TTLCache (List NewsItem)) (t t' : Nat)
    (region : String) (sources : Option (List String)) (limit : Int)
    (hmiss : (TTLCache.get cache t (latestKey registry region sources limit)).1 = none)
    (hwin : t' ≤ t + 300) :
    latest registry env2 (latest registry env1 cache t region sources limit).2
        t' region sources limit =
      ((latest registry env1 cache t region sources limit).1,
       (latest registry env1 cache t region sources limit).2) := by
  rw [latest_miss hmiss]
  have hget := TTLCache.get_set_self
    (TTLCache.get cache t (latestKey registry region sources limit)).2 t t'
    (latestKey registry region sources limit)
    (latestOutput env1 (latestSelected registry region sources) (clampLimit limit)) 300
  rw [if_neg (by omega)] at hget
  have hhit : (TTLCache.get
      (TTLCache.set (TTLCache.get cache t (latestKey registry region sources limit)).2 t
        (latestKey registry region sources limit)
        (latestOutput env1 (latestSelected registry region sources) (clampLimit limit)) 300)
      t' (latestKey registry region sources limit)).1 =
      some (latestOutput env1 (latestSelected registry region sources) (clampLimit limit)) := by
    rw [hget]
  rw [latest_hit hhit, hget]

/-- Claim C8 witness: a concrete repeat call 100 time units after a first
call on the empty cache returns the first result unchanged. -/
theorem C8_cached_idempotent_witness :
    latest [] env0 (latest [] env0 [] 0 "vn" none 50).2 100 "vn" none 50 =
      ((latest [] env0 [] 0 "vn" none 50).1,
       (latest [] env0 [] 0 "vn" none 50).2) :=
  C8_cached_idempotent [] env0 env0 [] 0 100 "vn" none 50 rfl (by decide)

/-! ## Claim C9 -/

/-- Claim C9: when the selection is empty (no registry source matches the
region and the optional source filter), `latest` is independent of the
fetch environment (no fetch task is dispatched, hence no network activity),
and on a cache miss it returns the empty list. -/
theorem C9_empty_selection (registry : List (String × SourceConfig))
    (env1 env2 : NewsEnv) (cache : TTLCache (List NewsItem)) (now : Nat)
    (region : String) (sources : Option (List String)) (limit : Int)
    (hsel : latestSelected registry region sources = []) :
    latest registry env1 cache now region sources limit =
      latest registry env2 cache now region sources limit ∧
    ((TTLCache.get cache now (latestKey registry region sources limit)).1 = none →
      (latest registry env1 cache now region sources limit).1 = []) := by
  have hout : ∀ e : NewsEnv, latestOutput e [] (clampLimit limit) = [] := by
    intro e
    simp [latestOutput, latestMerged]
  constructor
  · cases hg : (TTLCache.get cache now (latestKey registry region sources limit)).1 with
    | some v => rw [latest_hit hg, latest_hit hg]
    | none => rw [latest_miss hg, latest_miss hg, hsel, hout env1, hout env2]
  · intro hg
    rw [latest_miss hg, hsel]
    exact hout env1

/-- Claim C9 witness: with a registry containing only domestic sources, a
`global` call does not consult the fetch environment and returns the empty
list on the empty cache. -/
theorem C9_empty_selection_witness :
    latest DEFAULT_VN_ONLY cexEnv [] 0 "global" none 50 =
      latest DEFAULT_VN_ONLY env0 [] 0 "global" none 50 ∧
    (latest DEFAULT_VN_ONLY cexEnv [] 0 "global" none 50).1 = [] := by
  have h := C9_empty_selection DEFAULT_VN_ONLY cexEnv env0 [] 0 "global" none 50
    (by rfl)
  exact ⟨h.1, h.2 rfl⟩

/-! ## Claim C5 -/

/-- Claim C5: on a cache miss the effective limit is the caller argument
clamped into `[1, 200]` (`clampLimit`); the returned list is the pipeline
output truncated to that clamped limit, so its length is at most the
clamped limit, and the entry written back to the cache is that same
bounded list. -/
theorem C5_limit_clamped (registry : List (String × SourceConfig))
    (env : NewsEnv) (cache : TTLCache (List NewsItem)) (now : Nat)
    (region : String) (sources : Option (List String)) (limit : Int)
    (hmiss : (TTLCache.get cache now (latestKey registry region sources limit)).1 = none) :
    (latest registry env cache now region sources limit).1.length ≤ clampLimit limit ∧
    1 ≤ clampLimit limit ∧ clampLimit limit ≤ 200 ∧
    (latest registry env cache now region sources limit).1 =
      latestOutput env (latestSelected registry region sources) (clampLimit limit) ∧
    TTLCache.find (latest registry env cache now region sources limit).2
        (latestKey registry region sources limit) =
      some (now + 300, (latest registry env cache now region sources limit).1) := by
  rw [latest_miss hmiss]
  refine ⟨?_, ?_, ?_, rfl, ?_⟩
  · exact List.length_take_le (clampLimit limit)
      ((latestMerged env (latestSelected registry region sources)
        (clampLimit limit)).mergeSort (newsLE env.fromisoformat))
  · simp only [clampLimit]; omega
  · simp only [clampLimit]; omega
  · simp [TTLCache.set, TTLCache.find_insert_self]

/-- Claim C5 witness: a call with the out-of-range limit 1000 on the empty
cache is clamped to 200 and obeys the bounds. -/
theorem C5_limit_clamped_witness :
    (latest [] env0 [] 0 "vn" none 1000).1.length ≤ clampLimit 1000 ∧
    1 ≤ clampLimit 1000 ∧ clampLimit 1000 ≤ 200 ∧
    (latest [] env0 [] 0 "vn" none 1000).1 =
      latestOutput env0 (latestSelected [] "vn" none) (clampLimit 1000) ∧
    TTLCache.find (latest [] env0 [] 0 "vn" none 1000).2
        (latestKey [] "vn" none 1000) =
      some (0 + 300, (latest [] env0 [] 0 "vn" none 1000).1) :=
  C5_limit_clamped [] env0 [] 0 "vn" none 1000 rfl

/-! ## Claim C2 -/

theorem rssLoop_all_error (env : NewsEnv) (source : String) (limit : Nat)
    (urls : List String) (h : ∀ u ∈ urls, env.fetchRss u = .error ()) :
    rssLoop env source limit urls = [] := by
  induction urls with
  | nil => rfl
  | cons u rest ih =>
    have hu : env.fetchRss u = .error () := h u (by simp)
    simp only [rssLoop, rssUrlItems, hu]
    exact ih fun v hv => h v (by simp [hv])

theorem fetchHtmlItems_all_error (env : NewsEnv) (source : String)
    (limit : Nat) (seeds : List String)
    (h : ∀ u ∈ seeds, env.fetchHtml u = .error ()) :
    fetchHtmlItems env source seeds limit = [] := by
  have hcol : (seeds.map (htmlSeedPairs env)).flatten = [] := by
    induction seeds with
    | nil => rfl
    | cons s rest ih =>
      have hs : env.fetchHtml s = .error () := h s (by simp)
      simp only [List.map_cons, List.flatten_cons, htmlSeedPairs, hs]
      exact ih fun v hv => h v (by simp [hv])
  simp [fetchHtmlItems, hcol, dedupeKeepOrder, dedupeAux]

/-- Claim C2: the fetch strategies are total functions (nothing raised
inside them reaches the caller): a feed URL whose GET raises contributes
nothing and the loop simply moves on; an HTML seed whose GET raises
contributes no pairs; a source all of whose feed URLs or seed URLs raise
contributes the empty list; and when every fetch in the environment raises,
`latest` still returns — with the empty list — on a cache miss. -/
theorem C2_fetch_errors_swallowed (env : NewsEnv) (source : String)
    (limit : Nat) :
    (∀ url rest, env.fetchRss url = .error () →
      rssLoop env source limit (url :: rest) = rssLoop env source limit rest) ∧
    (∀ seed, env.fetchHtml seed = .error () → htmlSeedPairs env seed = []) ∧
    (∀ rss_urls, (∀ u ∈ rss_urls, env.fetchRss u = .error ()) →
      fetchRssItems env source rss_urls limit = []) ∧
    (∀ seed_urls, (∀ u ∈ seed_urls, env.fetchHtml u = .error ()) →
      fetchHtmlItems env source seed_urls limit = []) ∧
    (∀ registry cache now region srcs lim,
      (∀ u, env.fetchRss u = .error ()) →
      (∀ u, env.fetchHtml u = .error ()) →
      (TTLCache.get cache now (latestKey registry region srcs lim)).1 = none →
      (latest registry env cache now region srcs lim).1 = []) := by
  refine ⟨?_, ?_, ?_, ?_, ?_⟩
  · intro url rest h
    simp [rssLoop, rssUrlItems, h]
  · intro seed h
    simp [htmlSeedPairs, h]
  · intro urls h
    simp [fetchRssItems, rssLoop_all_error env source limit urls h]
  · intro seeds h
    exact fetchHtmlItems_all_error env source limit seeds h
  · intro registry cache now region srcs lim hr hh hmiss
    rw [latest_miss hmiss]
    have hm : latestMerged env (latestSelected registry region srcs) (clampLimit lim) = [] := by
      simp only [latestMerged, List.flatten_eq_nil_iff]
      intro l hl
      simp only [List.mem_map] at hl
      obtain ⟨cfg, -, rfl⟩ := hl
      unfold dispatchFetch
      split
      · simp [fetchRssItems,
          rssLoop_all_error env cfg.source _ cfg.rss_urls (fun u _ => hr u)]
      · exact fetchHtmlItems_all_error env cfg.source _ cfg.html_seed_urls
          (fun u _ => hh u)
    simp [latestOutput, hm]

/-- Claim C2 witness: the five clauses at concrete inputs under the
all-failing environment. -/
theorem C2_fetch_errors_swallowed_witness :
    rssLoop env0 "s" 5 ["u1"] = rssLoop env0 "s" 5 [] ∧
    htmlSeedPairs env0 "u1" = [] ∧
    fetchRssItems env0 "s" ["u1", "u2"] 5 = [] ∧
    fetchHtmlItems env0 "s" ["u1"] 5 = [] ∧
    (latest cexRegistry env0 [] 0 "vn" none 50).1 = [] := by
  have h := C2_fetch_errors_swallowed env0 "s" 5
  exact ⟨h.1 "u1" [] rfl, h.2.1 "u1" rfl,
    h.2.2.1 ["u1", "u2"] (fun u _ => rfl),
    h.2.2.2.1 ["u1"] (fun u _ => rfl),
    h.2.2.2.2 cexRegistry [] 0 "vn" none 50 (fun u => rfl) (fun u => rfl) rfl⟩

/-! ## Claim C6 -/

/-- Claim C6: the RSS fetcher tries feed URLs in the given order and stops
at the first URL that yields at least one item.  Instrumented by
`rssLoopTr`: the attempted URLs are exactly the longest prefix of
fruitless URLs plus the first fruitful one (if any); the loop result is the
contribution of that first fruitful URL (first-success-wins, not a union);
and the fetcher returns at most `limit` items. -/
theorem C6_rss_first_success (env : NewsEnv) (source : String) (limit : Nat)
    (urls : List String) :
    (rssLoopTr env source limit urls).1 = rssLoop env source limit urls ∧
    (rssLoopTr env source limit urls).2 =
      urls.takeWhile (fun u => (rssUrlItems env source limit u).isEmpty) ++
      (urls.dropWhile (fun u => (rssUrlItems env source limit u).isEmpty)).take 1 ∧
    rssLoop env source limit urls =
      (((urls.dropWhile (fun u => (rssUrlItems env source limit u).isEmpty)).head?.map
        (rssUrlItems env source limit)).getD []) ∧
    (fetchRssItems env source urls limit).length ≤ limit := by
  refine ⟨?_, ?_, ?_, ?_⟩
  · induction urls with
    | nil => rfl
    | cons u rest ih =>
      simp only [rssLoopTr, rssLoop]
      cases h : (rssUrlItems env source limit u).isEmpty <;> simp [h, ih]
  · induction urls with
    | nil => rfl
    | cons u rest ih =>
      simp only [rssLoopTr]
      cases h : (rssUrlItems env source limit u).isEmpty <;>
        simp [h, ih, List.takeWhile_cons, List.dropWhile_cons]
  · induction urls with
    | nil => rfl
    | cons u rest ih =>
      simp only [rssLoop]
      cases h : (rssUrlItems env source limit u).isEmpty
      · simp [h, List.dropWhile_cons]
      · simpa [h, List.dropWhile_cons] using ih
  · exact List.length_take_le limit (rssLoop env source limit urls)

/-! ## Claim C7 -/

theorem dedupeAux_congr (l : List (String × String)) :
    ∀ seen1 seen2, (∀ x, x ∈ seen1 ↔ x ∈ seen2) →
      dedupeAux seen1 l = dedupeAux seen2 l := by
  induction l with
  | nil => intro _ _ _; rfl
  | cons p rest ih =>
    intro s1 s2 h
    obtain ⟨t, u⟩ := p
    simp only [dedupeAux]
    by_cases hu : u ∈ s1
    · rw [if_pos hu, if_pos ((h u).mp hu)]
      exact ih s1 s2 h
    · rw [if_neg hu, if_neg fun hc => hu ((h u).mpr hc)]
      refine congrArg _ (ih _ _ fun x => ?_)
      simp [h x]

theorem dedupeAux_cons_seen (l : List (String × String)) :
    ∀ (u : String) (seen : List String),
      dedupeAux (u :: seen) l =
        dedupeAux seen (l.filter fun p => decide (p.2 ≠ u)) := by
  induction l with
  | nil => intro u seen; rfl
  | cons p rest ih =>
    intro u seen
    obtain ⟨t, v⟩ := p
    by_cases hv : v = u
    · subst hv
      simp only [dedupeAux, List.filter_cons]
      rw [if_pos (by simp), if_neg (by simp)]
      exact ih v seen
    · have hfil : List.filter (fun p => decide (p.2 ≠ u)) ((t, v) :: rest) =
          (t, v) :: List.filter (fun p => decide (p.2 ≠ u)) rest := by
        simp [List.filter_cons, hv]
      rw [hfil]
      simp only [dedupeAux]
      by_cases hs : v ∈ seen
      · rw [if_pos (show v ∈ u :: seen by simp [hs]), if_pos hs]
        exact ih u seen
      · rw [if_neg (show ¬ v ∈ u :: seen by simp [hs, hv]), if_neg hs]
        refine congrArg _ ?_
        rw [dedupeAux_congr rest (v :: u :: seen) (u :: v :: seen)
          (by intro x; constructor <;> (intro hx; simp at hx ⊢; tauto))]
        exact ih u (v :: seen)

theorem dedupeAux_nodup (l : List (String × String)) :
    ∀ seen, ((dedupeAux seen l).map Prod.snd).Nodup ∧
      ∀ x ∈ (dedupeAux seen l).map Prod.snd, x ∉ seen := by
  induction l with
  | nil => intro seen; exact ⟨List.nodup_nil, by simp [dedupeAux]⟩
  | cons p rest ih =>
    intro seen
    obtain ⟨t, v⟩ := p
    simp only [dedupeAux]
    by_cases hv : v ∈ seen
    · rw [if_pos hv]; exact ih seen
    · rw [if_neg hv]
      obtain ⟨h1, h2⟩ := ih (v :: seen)
      refine ⟨?_, ?_⟩
      · simp only [List.map_cons, List.nodup_cons]
        exact ⟨fun hmem => (h2 v hmem) (by simp), h1⟩
      · intro x hx
        simp only [List.map_cons, List.mem_cons] at hx
        rcases hx with rfl | hx
        · exact hv
        · exact fun hxs => h2 x hx (by simp [hxs])

theorem dedupeAux_sublist (l : List (String × String)) :
    ∀ seen, (dedupeAux seen l).Sublist l := by
  induction l with
  | nil => intro _; exact List.Sublist.refl []
  | cons p rest ih =>
    intro seen
    obtain ⟨t, v⟩ := p
    simp only [dedupeAux]
    split
    · exact (ih seen).cons _
    · exact (ih _).cons₂ _

/-- Claim C7: `_dedupe_keep_order` keeps exactly the first occurrence of
each URL in the original accumulation order (head kept, later pairs with
the same URL dropped; the output is a sublist of the input and its URLs
are pairwise distinct), and the final output of a single HTML-extraction
call carries pairwise-distinct URLs. -/
theorem C7_dedupe_by_url (env : NewsEnv) (source : String)
    (seed_urls : List String) (limit : Nat) (t u : String)
    (pairs rest : List (String × String)) :
    dedupeKeepOrder ((t, u) :: rest) =
      (t, u) :: dedupeKeepOrder (rest.filter fun p => decide (p.2 ≠ u)) ∧
    (dedupeKeepOrder pairs).Sublist pairs ∧
    ((dedupeKeepOrder pairs).map Prod.snd).Nodup ∧
    ((fetchHtmlItems env source seed_urls limit).map NewsItem.url).Nodup := by
  refine ⟨?_, dedupeAux_sublist pairs [], (dedupeAux_nodup pairs []).1, ?_⟩
  · simp only [dedupeKeepOrder, dedupeAux]
    rw [if_neg (by simp)]
    exact congrArg _ (dedupeAux_cons_seen rest u [])
  · set P := dedupeKeepOrder
      ((seed_urls.map (htmlSeedPairs env)).flatten) with hP
    have hnd : (P.map Prod.snd).Nodup := (dedupeAux_nodup _ []).1
    have hinj := List.inj_on_of_nodup_map hnd
    have hparts : (P.filter (fun p => isArticleLike p.2) ++
        P.filter (not ∘ fun p => isArticleLike p.2)).map Prod.snd
          |>.Nodup := by
      rw [List.map_append]
      refine List.Nodup.append ?_ ?_ ?_
      · exact hnd.sublist ((List.filter_sublist P).map Prod.snd)
      · exact hnd.sublist ((List.filter_sublist P).map Prod.snd)
      · intro x hx1 hx2
        simp only [List.mem_map, List.mem_filter] at hx1 hx2
        obtain ⟨a, ⟨haP, hap⟩, hax⟩ := hx1
        obtain ⟨b, ⟨hbP, hbp⟩, hbx⟩ := hx2
        have : a = b := hinj haP hbP (by rw [hax, hbx])
        subst this
        simp only [Function.comp] at hbp
        rw [hap] at hbp
        exact absurd hbp (by simp)
    have hchosen : ((fetchHtmlItems env source seed_urls limit).map
        NewsItem.url) =
        ((P.filter (fun p => isArticleLike p.2) ++
          P.filter (not ∘ fun p => isArticleLike p.2)).take limit).map
            Prod.snd := by
      simp only [fetchHtmlItems, List.partition_eq_filter_filter, ← hP,
        List.map_map]
      rfl
    rw [hchosen]
    exact hparts.sublist ((List.take_sublist _ _).map Prod.snd)

/-- A `NewsItem` whose `publish_time` is present but not parseable as an
ISO-8601 timestamp. -/
def itemBad : NewsItem :=
  { title := "X", summary := "", url := "http://x", source := "s",
    publish_time := some "garbage", image_url := none, tags := [] }

/-! ## Claim C1 -/

theorem newsLE_trans (fromiso : String → Option Nat) :
    ∀ a b c, newsLE fromiso a b → newsLE fromiso b c → newsLE fromiso a c := by
  intro a b c hab hbc
  simp only [newsLE, decide_eq_true_eq] at *
  omega

theorem newsLE_total (fromiso : String → Option Nat) :
    ∀ a b, newsLE fromiso a b || newsLE fromiso b a := by
  intro a b
  simp only [newsLE, Bool.or_eq_true, decide_eq_true_eq]
  omega

/-- Claim C1, as stated, is refuted at a concrete call: the feed returns
one entry with no date at all followed by one entry dated
`0001-01-01T00:00:00+00:00` (`datetime.min`, a timestamp `_to_iso` really
produces and `fromisoformat` really parses).  Both receive the sort key
`datetime.min`, the stable sort keeps the merge order, and the returned
sequence places the item with an absent `publish_time` *before* the item
that has one — contradicting "every item with an absent publish_time
appears after every item that has one". -/
theorem C1_counterexample :
    (latest cexRegistry cexEnv [] 0 "vn" none 10).1 =
      [itemNoDate, itemMinDate] ∧
    itemNoDate.publish_time = none ∧
    itemMinDate.publish_time = some "0001-01-01T00:00:00+00:00" := by
  refine ⟨?_, rfl, rfl⟩
  have hmiss : (TTLCache.get ([] : TTLCache (List NewsItem)) 0
      (latestKey cexRegistry "vn" none 10)).1 = none := rfl
  rw [latest_miss hmiss]
  show latestOutput cexEnv (latestSelected cexRegistry "vn" none)
    (clampLimit 10) = _
  rw [latestOutput,
    show latestMerged cexEnv (latestSelected cexRegistry "vn" none)
      (clampLimit 10) = [itemNoDate, itemMinDate] from rfl,
    show clampLimit 10 = 10 from rfl]
  have hle : newsLE cexEnv.fromisoformat itemNoDate itemMinDate = true := by
    rw [show newsLE cexEnv.fromisoformat itemNoDate itemMinDate =
      decide (sortKey cexEnv.fromisoformat itemMinDate ≤
        sortKey cexEnv.fromisoformat itemNoDate) from rfl,
      show sortKey cexEnv.fromisoformat itemMinDate = 0 from rfl,
      show sortKey cexEnv.fromisoformat itemNoDate = 0 from rfl]
    decide
  simp [List.mergeSort, List.splitInTwo, List.merge, hle]

/-- Claim C1 (amended): on a cache miss the returned sequence is the merged
per-source lists stable-sorted descending by the sort key (absent, empty or
unparseable publish times key as the earliest representable instant): the
result is pairwise descending in key; after an item with an absent
publish_time only items keyed at the earliest instant follow (so every item
whose key is strictly later than the earliest instant precedes every
absent-time item); and every key-tied group — including a dated item keyed
at the earliest instant tied with an undated one — keeps its post-merge
relative order (any pairwise-descending sublist of the merge survives as a
sublist of the sorted result). -/
theorem C1_sorted_descending_stable (registry : List (String × SourceConfig))
    (env : NewsEnv) (cache : TTLCache (List NewsItem)) (now : Nat)
    (region : String) (sources : Option (List String)) (limit : Int)
    (hmiss : (TTLCache.get cache now (latestKey registry region sources limit)).1 = none) :
    (latest registry env cache now region sources limit).1 =
      ((latestMerged env (latestSelected registry region sources)
        (clampLimit limit)).mergeSort (newsLE env.fromisoformat)).take
          (clampLimit limit) ∧
    (latest registry env cache now region sources limit).1.Pairwise
      (fun a b => newsLE env.fromisoformat a b = true) ∧
    (latest registry env cache now region sources limit).1.Pairwise
      (fun a b => a.publish_time = none →
        sortKey env.fromisoformat b = datetimeMin) ∧
    (∀ c : List NewsItem,
      c.Pairwise (fun a b => newsLE env.fromisoformat a b = true) →
      c.Sublist (latestMerged env (latestSelected registry region sources)
        (clampLimit limit)) →
      c.Sublist ((latestMerged env (latestSelected registry region sources)
        (clampLimit limit)).mergeSort (newsLE env.fromisoformat))) := by
  rw [latest_miss hmiss]
  have hsorted : ((latestMerged env (latestSelected registry region sources)
      (clampLimit limit)).mergeSort (newsLE env.fromisoformat)).Pairwise
        (fun a b => newsLE env.fromisoformat a b = true) :=
    List.sorted_mergeSort (newsLE_trans env.fromisoformat)
      (newsLE_total env.fromisoformat) _
  have htake : (latestOutput env (latestSelected registry region sources)
      (clampLimit limit)).Pairwise
        (fun a b => newsLE env.fromisoformat a b = true) :=
    hsorted.sublist (List.take_sublist _ _)
  refine ⟨rfl, htake, ?_, ?_⟩
  · refine htake.imp ?_
    intro a b hab hpt
    have hk : sortKey env.fromisoformat b ≤ sortKey env.fromisoformat a := by
      simpa [newsLE] using hab
    have ha : sortKey env.fromisoformat a = datetimeMin := by
      simp [sortKey, hpt]
    rw [ha] at hk
    simpa [datetimeMin] using Nat.le_zero.mp (by simpa [datetimeMin] using hk)
  · intro c hc hsub
    exact List.sublist_mergeSort (newsLE_trans env.fromisoformat)
      (newsLE_total env.fromisoformat) hc hsub

/-- Claim C1 witness: the amended theorem at the concrete call of the
counterexample — the returned list is pairwise descending in sort key. -/
theorem C1_sorted_descending_stable_witness :
    (latest cexRegistry cexEnv [] 0 "vn" none 10).1.Pairwise
      (fun a b => newsLE cexEnv.fromisoformat a b = true) :=
  (C1_sorted_descending_stable cexRegistry cexEnv [] 0 "vn" none 10 rfl).2.1

/-! ## Claim C10 -/

/-- Claim C10: an item whose `publish_time` is a present string that
`fromisoformat` cannot parse receives the sort key `datetime.min` — the
same key as an item with absent `publish_time` (the key computation is a
total function, the parse failure being absorbed by the caught-exception
default) — and replacing such an item by its absent-time twin commutes
with the stable sort, so it is ordered exactly as if its publish time were
absent. -/
theorem C10_unparseable_time_sorts_as_absent (fromiso : String → Option Nat)
    (item : NewsItem) (s : String)
    (hpt : item.publish_time = some s)
    (hbad : fromiso (pyReplaceZ s) = none) :
    sortKey fromiso item = datetimeMin ∧
    sortKey fromiso item = sortKey fromiso { item with publish_time := none } ∧
    (∀ (l : List NewsItem) (f : NewsItem → NewsItem),
      (∀ a, sortKey fromiso (f a) = sortKey fromiso a) →
      (l.mergeSort (newsLE fromiso)).map f =
        (l.map f).mergeSort (newsLE fromiso)) := by
  have h1 : sortKey fromiso item = datetimeMin := by
    simp only [sortKey, hpt]
    by_cases hs : s = ""
    · simp [hs]
    · simp [hs, hbad]
  refine ⟨h1, by rw [h1]; rfl, ?_⟩
  intro l f hf
  exact List.map_mergeSort fun a _ b _ => by simp [newsLE, hf a, hf b]

/-- Claim C10 witness: a concrete item carrying the unparseable timestamp
string `garbage` keys as `datetime.min`, like its absent-time twin. -/
theorem C10_unparseable_time_sorts_as_absent_witness :
    sortKey (fun _ => none) itemBad = datetimeMin ∧
    sortKey (fun _ => none) { itemBad with publish_time := none } =
      datetimeMin := by
  have h := C10_unparseable_time_sorts_as_absent (fun _ => none) itemBad
    "garbage" rfl rfl
  exact ⟨h.1, by rw [← h.2.1]; exact h.1⟩

/-! ## Claim C4 -/

/-- The property the spec asserts of extracted links, defined from the
words of the spec: an absolute HTTP(S) URL, i.e. one beginning with
`http://` or `https://`. -/
def isAbsoluteHttpUrl (s : String) : Bool :=
  pyStartsWith s "http://" || pyStartsWith s "https://"

theorem extract_links_start_http (base_url : String) :
    ∀ anchors, ∀ p ∈ extractLinksFromHtml anchors base_url,
      pyStartsWith p.2 "http" = true := by
  intro anchors
  induction anchors with
  | nil => intro p hp; simp [extractLinksFromHtml] at hp
  | cons a rest ih =>
    intro p hp
    rw [extractLinksFromHtml] at hp
    dsimp only at hp
    split_ifs at hp with h1 h2 h3 h4 h5
    · exact ih p hp
    · exact ih p hp
    · rcases List.mem_cons.mp hp with rfl | hmem
      · simpa using h4
      · exact ih p hmem
    · exact ih p hp
    · rcases List.mem_cons.mp hp with rfl | hmem
      · simpa using h5
      · exact ih p hmem
    · exact ih p hp

/-- Claim C4, as stated, is refuted at a concrete input: an anchor whose
href is the relative string `httpx` survives the filter (the code only
checks `href.startswith("http")`), so the output contains a URL that is
not an absolute HTTP(S) URL. -/
theorem C4_counterexample :
    extractLinksFromHtml [{ href := "httpx", text := "t" }]
        "https://example.com" = [("t", "httpx")] ∧
    isAbsoluteHttpUrl "httpx" = false := ⟨rfl, rfl⟩

/-- Claim C4 (amended): fragment-only and `javascript:` hrefs (the latter
case-insensitively) are discarded; a root-relative href is resolved by
appending it to the seed base with trailing slashes stripped; and every URL
in the output begins with the four characters `http` — the code keeps any
such string (which includes all absolute HTTP(S) URLs but also relative
strings such as `httpx`), discarding the rest. -/
theorem C4_link_extraction (a : Anchor) (rest : List Anchor)
    (base_url : String) :
    (pyStartsWith (pyStrip a.href) "#" = true →
      extractLinksFromHtml (a :: rest) base_url =
        extractLinksFromHtml rest base_url) ∧
    (pyStartsWith (pyLower (pyStrip a.href)) "javascript:" = true →
      extractLinksFromHtml (a :: rest) base_url =
        extractLinksFromHtml rest base_url) ∧
    (a.text ≠ "" → pyStartsWith (pyStrip a.href) "#" = false →
      pyStartsWith (pyLower (pyStrip a.href)) "javascript:" = false →
      pyStartsWith (pyStrip a.href) "/" = true →
      pyStartsWith (rstripSlash base_url ++ pyStrip a.href) "http" = true →
      extractLinksFromHtml (a :: rest) base_url =
        (a.text, rstripSlash base_url ++ pyStrip a.href) ::
          extractLinksFromHtml rest base_url) ∧
    (∀ anchors, ∀ p ∈ extractLinksFromHtml anchors base_url,
      pyStartsWith p.2 "http" = true) := by
  refine ⟨?_, ?_, ?_, extract_links_start_http base_url⟩
  · intro h
    have hne : pyStrip a.href ≠ "" := by
      intro he
      rw [he] at h
      exact absurd h (by decide)
    by_cases ht : a.text = ""
    · rw [extractLinksFromHtml, if_pos (by simp [ht])]
    · rw [extractLinksFromHtml, if_neg (by simp [hne, ht]),
        if_pos (by simp [h])]
  · intro h
    have hne : pyStrip a.href ≠ "" := by
      intro he
      rw [he] at h
      exact absurd h (by decide)
    by_cases ht : a.text = ""
    · rw [extractLinksFromHtml, if_pos (by simp [ht])]
    · rw [extractLinksFromHtml, if_neg (by simp [hne, ht]),
        if_pos (by simp [h])]
  · intro ht hfrag hjs hroot hhttp
    have hne : pyStrip a.href ≠ "" := by
      intro he
      rw [he] at hroot
      exact absurd hroot (by decide)
    rw [extractLinksFromHtml]
    dsimp only
    rw [if_neg (by simp [hne, ht]), if_neg (by simp [hfrag, hjs]),
      if_pos hroot, if_neg (not_not.mpr hhttp)]

/-- Claim C4 witness: the discard and resolution clauses of the amended
theorem at concrete anchors — a fragment link and a (mixed-case)
`javascript:` link vanish, and a root-relative link is resolved against
the scheme+host of the seed. -/
theorem C4_link_extraction_witness :
    extractLinksFromHtml [{ href := "#top", text := "t" }] "https://e.com" =
      extractLinksFromHtml [] "https://e.com" ∧
    extractLinksFromHtml [{ href := "JavaScript:void(0)", text := "t" }]
        "https://e.com" = extractLinksFromHtml [] "https://e.com" ∧
    extractLinksFromHtml [{ href := "/a", text := "t" }] "https://e.com/" =
      ("t", "https://e.com/a") :: extractLinksFromHtml [] "https://e.com/" := by
  refine ⟨(C4_link_extraction _ [] _).1 (by decide),
    (C4_link_extraction _ [] _).2.1 (by decide), ?_⟩
  have h := (C4_link_extraction { href := "/a", text := "t" } []
    "https://e.com/").2.2.1 (by decide) (by decide) (by decide) (by decide)
    (by decide)
  exact h

end Finance
